import Mathlib

/-!
# Verification of the Benkyo data-entry app (`src/main.py`)

A shallow embedding of the Streamlit app in `src/main.py`:
* JSON values (`JValue`) and Python's `str()` / `int()` coercions as the code
  uses them (`pyStr`, `asInt`);
* the mutable session state (`SessionState`) with the row operations
  `_add_row`, `_clear_rows`, `_reset_rows`, the delete handler, and
  `_current_entries`;
* the per-date JSON files as a path-keyed store (`FS`) together with
  `_save_entries_for_date`, `_load_entries_for_date`,
  `_read_entries_from_disk`;
* the progress display and the 7-day chart pipeline of `main`.

Dates are represented by their day number (days relative to 1970-01-01,
i.e. Python's `date.toordinal()` shifted by a constant); `timedelta(days=k)`
is `+ k` on this representation, and `date.isoformat` is implemented from
the standard civil-from-days calendar algorithm.

Python operations that can raise (`dict.get` on a non-dict value raises
`AttributeError`) are embedded in `Except String`.
-/

/-- JSON values, as produced by `json.load` / consumed by `json.dump`.
Numbers are modelled as integers (the app only ever writes integers). -/
inductive JValue : Type where
  | jnull : JValue
  | jbool : Bool → JValue
  | jint : Int → JValue
  | jstr : String → JValue
  | jlist : List JValue → JValue
  | jobj : List (String × JValue) → JValue

/-- Whether a JSON value is an object (a Python `dict`). -/
def JValue.isObj : JValue → Bool
  | .jobj _ => true
  | _ => false

/-- Whether a JSON value is a list. -/
def JValue.isList : JValue → Bool
  | .jlist _ => true
  | _ => false

mutual

/-- Python `repr`/`str` rendering of a JSON value (string escaping inside
composite values is simplified to plain quote-wrapping; the app never
branches on that rendering). -/
def pyRepr : JValue → String
  | .jnull => "None"
  | .jbool b => if b then "True" else "False"
  | .jint n => toString n
  | .jstr s => "\x27" ++ s ++ "\x27"
  | .jlist xs => "[" ++ String.intercalate ", " (pyReprList xs) ++ "]"
  | .jobj fields => "\x7b" ++ String.intercalate ", " (pyReprFields fields) ++ "\x7d"

def pyReprList : List JValue → List String
  | [] => []
  | x :: xs => pyRepr x :: pyReprList xs

def pyReprFields : List (String × JValue) → List String
  | [] => []
  | (k, v) :: fs => ("\x27" ++ k ++ "\x27: " ++ pyRepr v) :: pyReprFields fs

end

/-- Python `str(value)`: a string stays itself, other values render
via their `repr`-style string. -/
def pyStr : JValue → String
  | .jstr s => s
  | v => pyRepr v

/-- ASCII whitespace, as Python's `str.strip()` removes it (the further
Unicode whitespace Python strips is not modelled). -/
def pyIsSpace (c : Char) : Bool :=
  c = ' ' || c = '\t' || c = '\n' || c = '\r' || c = '\x0b' || c = '\x0c'

/-- Python `str.strip()`: drop leading and trailing whitespace. -/
def pyStrip (s : String) : String :=
  String.mk (((s.data.dropWhile pyIsSpace).reverse.dropWhile pyIsSpace).reverse)

/-- The numeric value of a decimal digit character. -/
def digitVal? (c : Char) : Option Nat :=
  if '0' ≤ c ∧ c ≤ '9' then some (c.toNat - '0'.toNat) else none

/-- Parse a non-empty all-digit character list as a natural number. -/
def parseNatDigits (cs : List Char) : Option Nat :=
  if cs.isEmpty then none
  else cs.foldl
    (fun acc c =>
      match acc, digitVal? c with
      | some n, some d => some (10 * n + d)
      | _, _ => none)
    (some 0)

/-- Python `int(string)`: optional surrounding whitespace, optional sign,
then decimal digits (`ValueError`, i.e. `none`, otherwise; digit-group
underscores are not modelled). -/
def pyIntOfString (s : String) : Option Int :=
  match (pyStrip s).data with
  | '-' :: cs => (parseNatDigits cs).map (fun n => -(n : Int))
  | '+' :: cs => (parseNatDigits cs).map (fun n => (n : Int))
  | cs => (parseNatDigits cs).map (fun n => (n : Int))

/-- `_as_int` (src/main.py lines 41-45): Python `int(value)`, returning 0 on
`TypeError`/`ValueError`.  `int` of a bool is 0/1, of a numeric string its
value, and raises on `None`, lists, dicts and non-numeric strings. -/
def asInt : JValue → Int
  | .jint n => n
  | .jbool b => if b then 1 else 0
  | .jstr s => (pyIntOfString s).getD 0
  | _ => 0

/-- Key lookup in a JSON object's field list: a later duplicate key
shadows an earlier one, as in the Python dict `json.load` builds. -/
def objLookup : List (String × JValue) → String → Option JValue
  | [], _ => none
  | p :: rest, k =>
      match objLookup rest k with
      | some v => some v
      | none => if p.1 = k then some p.2 else none

/-- Python `value.get(key, default)`: looks the key up when the value is a
dict, and raises `AttributeError` otherwise. -/
def pyGet (v : JValue) (k : String) (dflt : JValue) : Except String JValue :=
  match v with
  | .jobj fields => .ok ((objLookup fields k).getD dflt)
  | _ => .error "AttributeError"

/-- Total version of `pyGet`, defined only for the dict case (returns the
default on any non-dict).  `pyGet` agrees with it on dicts. -/
def objGetD (v : JValue) (k : String) (dflt : JValue) : JValue :=
  match v with
  | .jobj fields => (objLookup fields k).getD dflt
  | _ => dflt

theorem pyGet_of_isObj (v : JValue) (k : String) (dflt : JValue) (h : v.isObj = true) :
    pyGet v k dflt = .ok (objGetD v k dflt) := by
  cases v <;> simp_all [JValue.isObj, pyGet, objGetD]

/-! ## Calendar dates

A date is its day number relative to 1970-01-01 (an integer).  `isoformat`
renders it as `YYYY-MM-DD` via the standard civil-from-days algorithm, and
`timedelta(days = k)` is addition of `k`. -/

/-- Convert a day number (days since 1970-01-01) to `(year, month, day)`
by the standard civil calendar algorithm. -/
def civilFromDays (z : Int) : Int × Int × Int :=
  let z' := z + 719468
  let era := Int.fdiv z' 146097
  let doe := z' - era * 146097
  let yoe := Int.fdiv (doe - Int.fdiv doe 1460 + Int.fdiv doe 36524 - Int.fdiv doe 146096) 365
  let y := yoe + era * 400
  let doy := doe - (365 * yoe + Int.fdiv yoe 4 - Int.fdiv yoe 100)
  let mp := Int.fdiv (5 * doy + 2) 153
  let dd := doy - Int.fdiv (153 * mp + 2) 5 + 1
  let m := if mp < 10 then mp + 3 else mp - 9
  (if m ≤ 2 then y + 1 else y, m, dd)

/-- Zero-pad the decimal rendering of a nonnegative integer to `w` digits. -/
def padInt (w : Nat) (n : Int) : String :=
  let s := toString n.toNat
  (String.mk (List.replicate (w - s.length) '0')) ++ s

/-- Python `date.isoformat()` on the day-number representation:
`YYYY-MM-DD`. -/
def isoformat (z : Int) : String :=
  let c := civilFromDays z
  padInt 4 c.1 ++ "-" ++ padInt 2 c.2.1 ++ "-" ++ padInt 2 c.2.2

/-! ## The file system

Files are keyed by name.  A file either holds text that is not valid JSON
(`corrupt`, on which `json.load` raises `JSONDecodeError`) or a JSON value
(`valid v`, on which `json.load` returns `v`; `json.dump` always writes
files of this form). -/

/-- Contents of one file: invalid JSON text, or a JSON value. -/
inductive FileContent : Type where
  | corrupt : FileContent
  | valid : JValue → FileContent

/-- The data directory: an association of file names to contents.
A name that is absent is a file that does not exist. -/
def FS : Type := List (String × FileContent)

/-- Read a file (`none` when it does not exist). -/
def fsGet : FS → String → Option FileContent
  | [], _ => none
  | q :: rest, p => if q.1 = p then some q.2 else fsGet rest p

/-- Write a file, replacing any previous contents. -/
def fsSet : FS → String → FileContent → FS
  | [], p, c => [(p, c)]
  | q :: rest, p, c => if q.1 = p then (p, c) :: rest else q :: fsSet rest p c

theorem fsGet_fsSet_self (fs : FS) (p : String) (c : FileContent) :
    fsGet (fsSet fs p c) p = some c := by
  induction fs with
  | nil => simp [fsGet, fsSet]
  | cons q rest ih =>
      by_cases h : q.1 = p
      · simp [fsGet, fsSet, h]
      · simpa [fsGet, fsSet, h] using ih

theorem fsGet_fsSet_other (fs : FS) (p q : String) (c : FileContent) (h : q ≠ p) :
    fsGet (fsSet fs p c) q = fsGet fs q := by
  induction fs with
  | nil => simp [fsGet, fsSet, Ne.symm h]
  | cons r rest ih =>
      by_cases hr : r.1 = p
      · simp [fsGet, fsSet, hr, Ne.symm h]
      · by_cases hq : r.1 = q
        · simp [fsGet, fsSet, hr, hq, h]
        · simpa [fsGet, fsSet, hr, hq] using ih

/-! ## Session state -/

/-- Association-list get on `Nat` keys (Python dict lookup). -/
def alGet {α : Type} : List (Nat × α) → Nat → Option α
  | [], _ => none
  | p :: rest, k => if p.1 = k then some p.2 else alGet rest k

/-- Association-list set (Python dict assignment): replace in place, or
append when the key is new. -/
def alSet {α : Type} : List (Nat × α) → Nat → α → List (Nat × α)
  | [], k, v => [(k, v)]
  | p :: rest, k, v => if p.1 = k then (k, v) :: rest else p :: alSet rest k v

/-- Association-list pop (Python `dict.pop(key, None)`): drop the key. -/
def alPop {α : Type} : List (Nat × α) → Nat → List (Nat × α)
  | [], _ => []
  | p :: rest, k => if p.1 = k then alPop rest k else p :: alPop rest k

theorem alGet_alSet_self {α : Type} (l : List (Nat × α)) (k : Nat) (v : α) :
    alGet (alSet l k v) k = some v := by
  induction l with
  | nil => simp [alGet, alSet]
  | cons p rest ih =>
      by_cases h : p.1 = k
      · simp [alGet, alSet, h]
      · simpa [alGet, alSet, h] using ih

theorem alGet_alSet_other {α : Type} (l : List (Nat × α)) (k j : Nat) (v : α) (h : j ≠ k) :
    alGet (alSet l k v) j = alGet l j := by
  induction l with
  | nil => simp [alGet, alSet, Ne.symm h]
  | cons p rest ih =>
      by_cases hp : p.1 = k
      · simp [alGet, alSet, hp, Ne.symm h]
      · by_cases hq : p.1 = j
        · simp [alGet, alSet, hp, hq, h]
        · simpa [alGet, alSet, hp, hq] using ih

theorem alGet_alPop_self {α : Type} (l : List (Nat × α)) (k : Nat) :
    alGet (alPop l k) k = none := by
  induction l with
  | nil => simp [alGet, alPop]
  | cons p rest ih =>
      by_cases h : p.1 = k
      · simpa [alPop, h] using ih
      · simpa [alGet, alPop, h] using ih

theorem alGet_alPop_other {α : Type} (l : List (Nat × α)) (k j : Nat) (h : j ≠ k) :
    alGet (alPop l k) j = alGet l j := by
  induction l with
  | nil => simp [alGet, alPop]
  | cons p rest ih =>
      by_cases hp : p.1 = k
      · have hj : ¬ p.1 = j := by
          intro hc
          exact h (by rw [← hc, hp])
        simpa [alGet, alPop, hp, hj, Ne.symm h] using ih
      · by_cases hq : p.1 = j
        · simp [alGet, alPop, hp, hq, h]
        · simpa [alGet, alPop, hp, hq] using ih

/-- The Streamlit session state relevant to the rows: `row_ids`,
`next_row_id`, and the widget values `text_{id}` / `slider_{id}`.
Text widgets always hold strings and slider widgets integers, so the
two key families are kept as two maps. -/
structure SessionState : Type where
  rowIds : List Nat
  nextRowId : Nat
  texts : List (Nat × String)
  sliders : List (Nat × Int)
deriving Repr, DecidableEq

/-- The session state of a fresh session, after the `_ensure_state`
initialisation of the four keys but before its trailing `_add_row`. -/
def freshState : SessionState :=
  { rowIds := [], nextRowId := 0, texts := [], sliders := [] }

/-- `_add_row` (src/main.py lines 33-38): allocate the next id, append it to
`row_ids`, and set the row's text and slider state. -/
def addRow (s : SessionState) (text : String) (slider : Int) : SessionState :=
  let rid := s.nextRowId
  { rowIds := s.rowIds ++ [rid]
    nextRowId := rid + 1
    texts := alSet s.texts rid text
    sliders := alSet s.sliders rid slider }

/-- `_ensure_state` (src/main.py lines 18-30) on the row state: when there
are no rows, add one (with the defaults `text=""`, `slider=0`). -/
def ensureState (s : SessionState) : SessionState :=
  if s.rowIds.isEmpty then addRow s "" 0 else s

/-- `_clear_rows` (src/main.py lines 48-53): pop every row's widget keys,
empty `row_ids`, and reset the id counter to 0. -/
def clearRows (s : SessionState) : SessionState :=
  { rowIds := []
    nextRowId := 0
    texts := s.rowIds.foldl (fun ts rid => alPop ts rid) s.texts
    sliders := s.rowIds.foldl (fun ss rid => alPop ss rid) s.sliders }

/-- The loop body of `_reset_rows`: add one row with Python's
`str(entry.get("text", ""))` and `_as_int(entry.get("slider", 0))`
(`entry.get` raises when the entry is not a dict). -/
def resetStep (st : SessionState) (e : JValue) : Except String SessionState := do
  let t ← pyGet e "text" (.jstr "")
  let v ← pyGet e "slider" (.jint 0)
  pure (addRow st (pyStr t) (asInt v))

/-- `_reset_rows` (src/main.py lines 56-64): clear, replace an empty entry
list by one blank entry, and add a row per entry. -/
def resetRows (s : SessionState) (entries : List JValue) : Except String SessionState :=
  let entries' := if entries.isEmpty then [JValue.jobj [("text", .jstr ""), ("slider", .jint 0)]]
                  else entries
  entries'.foldlM resetStep (clearRows s)

/-- One normalised row as saved to disk: the shape
`{"text": str(...), "slider": _as_int(...)}`. -/
structure Entry : Type where
  text : String
  slider : Int
deriving Repr, DecidableEq

/-- The JSON object a normalised entry serialises to. -/
def encodeEntry (e : Entry) : JValue :=
  .jobj [("text", .jstr e.text), ("slider", .jint e.slider)]

/-- `_current_entries` (src/main.py lines 67-74): one dict per live row,
with the row's text state (a string, default `""`) and `_as_int` of its
slider state (an integer, on which `_as_int` is the identity). -/
def currentEntries (s : SessionState) : List Entry :=
  s.rowIds.map (fun rid =>
    { text := (alGet s.texts rid).getD ""
      slider := (alGet s.sliders rid).getD 0 })

/-- The delete handler (src/main.py lines 193-200) for one pressed delete
button: remove the row id from `row_ids` and pop its widget keys. -/
def removeOne (s : SessionState) (rid : Nat) : SessionState :=
  if rid ∈ s.rowIds then
    { rowIds := s.rowIds.erase rid
      nextRowId := s.nextRowId
      texts := alPop s.texts rid
      sliders := alPop s.sliders rid }
  else s

/-- The delete handler (src/main.py lines 193-200): when any delete button
was pressed, remove each pressed row, then re-add a blank row if the list
became empty. -/
def removeRows (s : SessionState) (ridsToRemove : List Nat) : SessionState :=
  if ridsToRemove.isEmpty then s
  else
    let s' := ridsToRemove.foldl removeOne s
    if s'.rowIds.isEmpty then addRow s' "" 0 else s'

/-! ## Persistence -/

/-- `_data_file_for_date` (src/main.py lines 77-78): the file named by the
date's ISO string, inside the data directory. -/
def dataFileName (day : Int) : String :=
  isoformat day ++ ".json"

/-- Normalisation of one entry as `_save_entries_for_date` performs it:
`{"text": str(entry.get("text", "")), "slider": _as_int(entry.get("slider", 0))}`
(raising when the entry is not a dict). -/
def normalizeEntry (e : JValue) : Except String Entry := do
  let t ← pyGet e "text" (.jstr "")
  let v ← pyGet e "slider" (.jint 0)
  pure { text := pyStr t, slider := asInt v }

/-- `_save_entries_for_date` (src/main.py lines 96-106): normalise the
entries in order and write them as a JSON list to the date's file. -/
def saveEntriesForDate (fs : FS) (day : Int) (entries : List JValue) :
    Except String FS := do
  let payload ← entries.mapM normalizeEntry
  pure (fsSet fs (dataFileName day) (.valid (.jlist (payload.map encodeEntry))))

/-- The parse used by both readers: missing file ↦ `[]`, invalid JSON ↦ `[]`
(`json.JSONDecodeError` is caught), a non-list top level ↦ `[]`, and a
list ↦ its elements. -/
def parseDayFile : Option FileContent → List JValue
  | none => []
  | some .corrupt => []
  | some (.valid (.jlist xs)) => xs
  | some (.valid _) => []

/-- `_read_entries_from_disk` (src/main.py lines 109-118). -/
def readEntriesFromDisk (fs : FS) (day : Int) : List JValue :=
  parseDayFile (fsGet fs (dataFileName day))

/-- `_load_entries_for_date` (src/main.py lines 81-93): read the date's
file with the same tolerant parse, then `_reset_rows`. -/
def loadEntriesForDate (fs : FS) (day : Int) (s : SessionState) :
    Except String SessionState :=
  resetRows s (parseDayFile (fsGet fs (dataFileName day)))

/-! ## Progress display (src/main.py lines 147-165) -/

/-- `slider_count`: the number of live rows. -/
def sliderCount (s : SessionState) : Nat :=
  s.rowIds.length

/-- `target_total`: `slider_count * 100 if slider_count else 0`. -/
def targetTotal (s : SessionState) : Int :=
  if sliderCount s ≠ 0 then (sliderCount s : Int) * 100 else 0

/-- `total_slider`: the sum over the live rows of `_as_int` of the slider
state (an integer, on which `_as_int` is the identity; a missing key
defaults to 0). -/
def totalSlider (s : SessionState) : Int :=
  (s.rowIds.map (fun rid => (alGet s.sliders rid).getD 0)).sum

/-- `progress_value`: `total_slider / target_total` (real division) when
`target_total` is nonzero, else `0.0`. -/
def progressValue (s : SessionState) : ℚ :=
  if targetTotal s ≠ 0 then (totalSlider s : ℚ) / (targetTotal s : ℚ) else 0

/-- The value passed to `st.progress`: `min(progress_value, 1.0)`. -/
def displayedProgress (s : SessionState) : ℚ :=
  min (progressValue s) 1

/-- The running sum shown in the progress text
`"スライダー合計: {total_slider} / {max(target_total, 100)}"`. -/
def shownSum (s : SessionState) : Int :=
  totalSlider s

/-- Whether the success message (and balloons) are shown:
`slider_count and total_slider == target_total`. -/
def successShown (s : SessionState) : Bool :=
  sliderCount s != 0 && totalSlider s == targetTotal s

/-! ## The chart tab (src/main.py lines 211-265) -/

/-- `week_days`: `[selected_date - 6 days, …, selected_date]`. -/
def weekDays (d : Int) : List Int :=
  (List.range 7).map (fun offset => d - 6 + offset)

/-- `daily_entries`: the dict comprehension mapping each day's label to the
entries read from that day's file (association list in insertion order). -/
def dailyEntries (fs : FS) (d : Int) : List (String × List JValue) :=
  (weekDays d).map (fun day => (isoformat day, readEntriesFromDisk fs day))

/-- Python `dict.get(key, default)` on a string-keyed association list. -/
def dictGet {α : Type} : List (String × α) → String → α → α
  | [], _, dflt => dflt
  | p :: rest, k, dflt => if p.1 = k then p.2 else dictGet rest k dflt

/-- `max_length`: the running maximum of the entry-list lengths. -/
def maxLength (fs : FS) (d : Int) : Nat :=
  (dailyEntries fs d).foldl (fun m p => max m p.2.length) 0

/-- One day's pass of the `label_cache` loop: for each `(index, item)` of
the day's entries, `str(item.get("text", "")).strip()`, and record it for
`index` when it is non-empty and `index` is not yet cached. -/
def labelCacheDay (cache : List (Nat × String)) (dayEntries : List JValue) :
    Except String (List (Nat × String)) :=
  dayEntries.enum.foldlM
    (fun c iv => do
      let t ← pyGet iv.2 "text" (.jstr "")
      let tl := pyStrip (pyStr t)
      pure (if tl ≠ "" ∧ alGet c iv.1 = none then alSet c iv.1 tl else c))
    cache

/-- `label_cache` (src/main.py lines 223-229): scan the days in insertion
order (earliest first), then each day's entries by index. -/
def labelCache (fs : FS) (d : Int) : Except String (List (Nat × String)) :=
  (dailyEntries fs d).foldlM (fun cache p => labelCacheDay cache p.2) []

/-- The value plotted for one day at one row position (src/main.py lines
240-244): `_as_int(day_entries[index].get("slider", 0))` when the day has
that many entries, else 0. -/
def chartValueAt (dayEntries : List JValue) (index : Nat) : Except String Int :=
  if h : index < dayEntries.length then do
    let v ← pyGet (dayEntries.get ⟨index, h⟩) "slider" (.jint 0)
    pure (asInt v)
  else pure 0

/-- One row of the `records` list: date label, series label, value. -/
structure ChartRecord : Type where
  date : String
  series : String
  value : Int
deriving Repr, DecidableEq

/-- One record of the inner loop (src/main.py lines 238-251): the day's
label, the series label for the row position (`slider_label` is a pure
lookup in `label_cache` with the numbered placeholder default — the code
computes it once per row position before the day loop, which is the same
value), and the plotted value from the `daily_entries` label lookup. -/
def chartRecordFor (fs : FS) (d : Int) (cache : List (Nat × String))
    (index : Nat) (day : Int) : Except String ChartRecord := do
  let dayEntries := dictGet (dailyEntries fs d) (isoformat day) []
  let v ← chartValueAt dayEntries index
  pure { date := isoformat day
         series := (alGet cache index).getD ("スライダー" ++ toString (index + 1))
         value := v }

/-- `records` (src/main.py lines 235-251): for each row position up to
`max_length`, one record per day of the week, appended in (position, day)
order. -/
def chartRecords (fs : FS) (d : Int) : Except String (List ChartRecord) := do
  let cache ← labelCache fs d
  let rows ← (List.range (maxLength fs d)).mapM
    (fun index => (weekDays d).mapM (chartRecordFor fs d cache index))
  pure rows.flatten

/-! ## Generic helper lemmas -/

@[simp] theorem except_bind_ok {α β : Type} (y : α) (g : α → Except String β) :
    ((Except.ok y : Except String α) >>= g) = g y := rfl

@[simp] theorem except_bind_error {α β : Type} (e : String) (g : α → Except String β) :
    ((Except.error e : Except String α) >>= g) = Except.error e := rfl

@[simp] theorem except_pure_eq {α : Type} (y : α) :
    (pure y : Except String α) = Except.ok y := rfl

theorem mapM_ok_of_forall {α β : Type} (f : α → Except String β) (g : α → β) :
    ∀ (l : List α), (∀ a ∈ l, f a = .ok (g a)) → l.mapM f = .ok (l.map g)
  | [], _ => rfl
  | x :: xs, h => by
      have hx : f x = .ok (g x) := h x (by simp)
      have ih := mapM_ok_of_forall f g xs (fun a ha => h a (by simp [ha]))
      rw [List.mapM_cons, hx, except_bind_ok, ih, except_bind_ok]
      rfl

theorem foldlM_ok_of_forall {α β : Type} (f : β → α → Except String β) (g : β → α → β) :
    ∀ (l : List α) (b : β), (∀ b' a, a ∈ l → f b' a = .ok (g b' a)) →
      l.foldlM f b = .ok (l.foldl g b)
  | [], b, _ => rfl
  | x :: xs, b, h => by
      have hx : f b x = .ok (g b x) := h b x (by simp)
      have ih := foldlM_ok_of_forall f g xs (g b x) (fun b' a ha => h b' a (by simp [ha]))
      rw [List.foldlM_cons, hx, except_bind_ok, ih]
      rfl

theorem foldl_max_le {α : Type} (f : α → Nat) :
    ∀ (l : List α) (b : Nat), b ≤ l.foldl (fun m x => max m (f x)) b
  | [], _ => Nat.le_refl _
  | x :: xs, b => by
      have ih := foldl_max_le f xs (max b (f x))
      calc b ≤ max b (f x) := Nat.le_max_left _ _
        _ ≤ _ := ih

theorem foldl_max_mem_le {α : Type} (f : α → Nat) :
    ∀ (l : List α) (b : Nat), ∀ a ∈ l, f a ≤ l.foldl (fun m x => max m (f x)) b
  | [], _, a, ha => absurd ha (List.not_mem_nil a)
  | x :: xs, b, a, ha => by
      rcases List.mem_cons.mp ha with h | h
      · subst h
        calc f a ≤ max b (f a) := Nat.le_max_right _ _
          _ ≤ _ := foldl_max_le f xs _
      · exact foldl_max_mem_le f xs (max b (f x)) a h

theorem foldl_max_cases {α : Type} (f : α → Nat) :
    ∀ (l : List α) (b : Nat),
      l.foldl (fun m x => max m (f x)) b = b ∨
      ∃ a ∈ l, l.foldl (fun m x => max m (f x)) b = f a
  | [], b => Or.inl rfl
  | x :: xs, b => by
      rcases foldl_max_cases f xs (max b (f x)) with h | ⟨a, ha, h⟩
      · rcases max_choice b (f x) with hm | hm
        · exact Or.inl (by rw [List.foldl_cons, h, hm])
        · exact Or.inr ⟨x, by simp, by rw [List.foldl_cons, h, hm]⟩
      · exact Or.inr ⟨a, by simp [ha], by rw [List.foldl_cons, h]⟩

/-- On an association list every value of which is determined by its key,
`dict.get` of a present key returns that key's value. -/
theorem dictGet_of_keyed {α : Type} (f : String → α) (dflt : α) (l : List (String × α))
    (hl : ∀ p ∈ l, p.2 = f p.1) (k : String) (hk : ∃ p ∈ l, p.1 = k) :
    dictGet l k dflt = f k := by
  induction l with
  | nil => simp at hk
  | cons p rest ih =>
      by_cases hpk : p.1 = k
      · have hp := hl p (List.mem_cons_self p rest)
        show (if p.1 = k then p.2 else dictGet rest k dflt) = f k
        rw [if_pos hpk, hp, hpk]
      · show (if p.1 = k then p.2 else dictGet rest k dflt) = f k
        rw [if_neg hpk]
        rcases hk with ⟨q, hq, hqk⟩
        rcases List.mem_cons.mp hq with rfl | hq'
        · exact absurd hqk hpk
        · exact ih (fun r hr => hl r (by simp [hr])) ⟨q, hq', hqk⟩

/-! ## Session-state invariants -/

/-- Every live row id is below the id counter (maintained by the code:
ids are only handed out by `_add_row`, which increments the counter). -/
def idInv (s : SessionState) : Prop :=
  ∀ rid ∈ s.rowIds, rid < s.nextRowId

/-- Every slider value in the session state lies in the widget range
0–100. -/
def sliderInv (s : SessionState) : Prop :=
  ∀ p ∈ s.sliders, 0 ≤ p.2 ∧ p.2 ≤ 100

instance (s : SessionState) : Decidable (idInv s) := by
  unfold idInv; infer_instance

instance (s : SessionState) : Decidable (sliderInv s) := by
  unfold sliderInv; infer_instance

/-! ## C1: the progress display -/

/-- C1: for every session state, the running sum shown by the progress text
equals the sum of the slider values of all current rows; the progress bar
value equals that sum divided by (100 × number of rows), capped at 1.0,
and is 0.0 when there are no rows; and the success message is shown exactly
when there is at least one row and the sum equals 100 × the number of
rows. -/
theorem progress_display_correct (s : SessionState) :
    shownSum s = ((currentEntries s).map Entry.slider).sum ∧
    displayedProgress s =
      (if s.rowIds.length = 0 then (0 : ℚ)
       else min ((totalSlider s : ℚ) / (100 * (s.rowIds.length : ℚ))) 1) ∧
    (successShown s = true ↔ s.rowIds ≠ [] ∧ totalSlider s = 100 * (s.rowIds.length : Int)) := by
  refine ⟨?_, ?_, ?_⟩
  · simp [shownSum, totalSlider, currentEntries, List.map_map, Function.comp_def]
  · by_cases hn : s.rowIds.length = 0
    · simp [displayedProgress, progressValue, targetTotal, sliderCount, hn]
    · have htarget : targetTotal s = (s.rowIds.length : Int) * 100 := by
        simp [targetTotal, sliderCount, hn]
      have hne : ((s.rowIds.length : Int) * 100 : ℚ) ≠ 0 := by
        push_cast
        intro hc
        rcases mul_eq_zero.mp hc with hc' | hc'
        · exact hn (by exact_mod_cast hc')
        · norm_num at hc'
      rw [if_neg hn]
      rw [displayedProgress, progressValue, htarget]
      rw [if_pos (by exact_mod_cast fun hc => hne (by exact_mod_cast hc))]
      congr 1
      push_cast
      ring
  · constructor
    · intro h
      simp only [successShown, Bool.and_eq_true, bne_iff_ne, beq_iff_eq, ne_eq] at h
      obtain ⟨h1, h2⟩ := h
      have hlen : s.rowIds.length ≠ 0 := by simpa [sliderCount] using h1
      refine ⟨by simpa using List.length_pos.mp (Nat.pos_of_ne_zero hlen), ?_⟩
      rw [h2]
      simp [targetTotal, sliderCount, hlen]
      ring
    · intro ⟨h1, h2⟩
      have hlen : s.rowIds.length ≠ 0 := by
        intro hc
        exact h1 (List.length_eq_zero.mp hc)
      simp only [successShown, Bool.and_eq_true, bne_iff_ne, beq_iff_eq, ne_eq]
      refine ⟨by simpa [sliderCount] using hlen, ?_⟩
      rw [h2]
      simp [targetTotal, sliderCount, hlen]
      ring

/-! ## C2: the chart window -/

/-- C2: the chart tab aggregates exactly the 7 consecutive calendar days
ending at the selected date `d` — the days `d-6` through `d`, in that
order — and each day's entries are read from that day's file on disk
(the `daily_entries` lookup by the day's label returns exactly what
`_read_entries_from_disk` returns for that day). -/
theorem chart_aggregates_week (fs : FS) (d : Int) :
    weekDays d = [d - 6, d - 5, d - 4, d - 3, d - 2, d - 1, d] ∧
    (∀ day, readEntriesFromDisk fs day = parseDayFile (fsGet fs (isoformat day ++ ".json"))) ∧
    (∀ day ∈ weekDays d,
      dictGet (dailyEntries fs d) (isoformat day) [] = readEntriesFromDisk fs day) := by
  refine ⟨?_, fun day => rfl, ?_⟩
  · have h7 : List.range 7 = [0, 1, 2, 3, 4, 5, 6] := rfl
    rw [weekDays, h7]
    norm_num
    omega
  · intro day hday
    exact dictGet_of_keyed (fun label => parseDayFile (fsGet fs (label ++ ".json"))) []
      (dailyEntries fs d)
      (fun p hp => by
        rcases List.mem_map.mp hp with ⟨day', _, rfl⟩
        rfl)
      (isoformat day)
      ⟨(isoformat day, readEntriesFromDisk fs day), List.mem_map_of_mem _ hday, rfl⟩

/-- Concrete instance of `chart_aggregates_week`: in the window for day 0,
day `-3` is aggregated and its lookup reads its own file. -/
theorem chart_aggregates_week_witness :
    ((-3 : Int) ∈ weekDays 0) ∧
    dictGet (dailyEntries [] 0) (isoformat (-3)) [] = readEntriesFromDisk [] (-3) :=
  ⟨by decide, (chart_aggregates_week [] 0).2.2 (-3) (by decide)⟩

/-! ## Saving and reading -/

/-- The pure normalisation `_save_entries_for_date` applies to one dict
entry: `{"text": str(entry.get("text", "")), "slider": _as_int(entry.get("slider", 0))}`. -/
def normalizeEntryPure (e : JValue) : Entry :=
  { text := pyStr (objGetD e "text" (.jstr ""))
    slider := asInt (objGetD e "slider" (.jint 0)) }

theorem normalizeEntry_of_isObj (e : JValue) (h : e.isObj = true) :
    normalizeEntry e = .ok (normalizeEntryPure e) := by
  simp [normalizeEntry, pyGet_of_isObj _ _ _ h, normalizeEntryPure]

theorem saveEntriesForDate_ok (fs : FS) (d : Int) (entries : List JValue)
    (h : ∀ e ∈ entries, e.isObj = true) :
    saveEntriesForDate fs d entries =
      .ok (fsSet fs (dataFileName d)
        (.valid (.jlist ((entries.map normalizeEntryPure).map encodeEntry)))) := by
  have hm := mapM_ok_of_forall normalizeEntry normalizeEntryPure entries
    (fun e he => normalizeEntry_of_isObj e (h e he))
  unfold saveEntriesForDate
  rw [hm]
  rfl

/-- C5: for every date `d`, the rows for `d` are persisted in exactly one
file, the one named by `d`'s ISO-8601 date string: saving writes the
normalised rows as a JSON list, in the same order as the entry list, to
that file, and leaves every other file unchanged. -/
theorem save_persists_one_file (fs : FS) (d : Int) (entries : List JValue)
    (h : ∀ e ∈ entries, e.isObj = true) :
    dataFileName d = isoformat d ++ ".json" ∧
    ∃ fs', saveEntriesForDate fs d entries = .ok fs' ∧
      fsGet fs' (dataFileName d) =
        some (.valid (.jlist (entries.map (fun e =>
          JValue.jobj [("text", .jstr (pyStr (objGetD e "text" (.jstr "")))),
                       ("slider", .jint (asInt (objGetD e "slider" (.jint 0))))])))) ∧
      (∀ p, p ≠ dataFileName d → fsGet fs' p = fsGet fs p) := by
  refine ⟨rfl, _, saveEntriesForDate_ok fs d entries h, ?_, ?_⟩
  · rw [fsGet_fsSet_self, List.map_map]
    rfl
  · intro p hp
    exact fsGet_fsSet_other fs (dataFileName d) p _ hp

/-- Concrete instance of `save_persists_one_file`: saving one entry whose
slider is the numeric string `"7"` writes the file for day 0 with the
normalised object. -/
theorem save_persists_one_file_witness :
    ∃ fs', saveEntriesForDate [] 0 [JValue.jobj [("slider", JValue.jstr "7")]] = .ok fs' ∧
      fsGet fs' (dataFileName 0) =
        some (.valid (.jlist [JValue.jobj [("text", .jstr ""), ("slider", .jint 7)]])) := by
  obtain ⟨-, fs', hok, hget, -⟩ :=
    save_persists_one_file [] 0 [JValue.jobj [("slider", JValue.jstr "7")]] (by decide)
  exact ⟨fs', hok, by rw [hget]; rfl⟩

/-- C10: saving a list of dict entries and reading the file back yields the
normalised list: same length, entry `i`'s text the string coercion of the
original (default `""`), entry `i`'s slider the integer coercion of the
original (default 0); an already-normalised list round-trips unchanged. -/
theorem save_read_roundtrip (fs : FS) (d : Int) (entries : List JValue) (fs' : FS)
    (h : ∀ e ∈ entries, e.isObj = true)
    (hsave : saveEntriesForDate fs d entries = .ok fs') :
    readEntriesFromDisk fs' d =
      entries.map (fun e =>
        JValue.jobj [("text", .jstr (pyStr (objGetD e "text" (.jstr "")))),
                     ("slider", .jint (asInt (objGetD e "slider" (.jint 0))))]) ∧
    (readEntriesFromDisk fs' d).length = entries.length ∧
    (∀ es : List Entry, entries = es.map encodeEntry → readEntriesFromDisk fs' d = entries) := by
  have hok := saveEntriesForDate_ok fs d entries h
  rw [hsave] at hok
  have hfs : fs' = fsSet fs (dataFileName d)
      (.valid (.jlist ((entries.map normalizeEntryPure).map encodeEntry))) :=
    Except.ok.inj hok
  have hread : readEntriesFromDisk fs' d =
      entries.map (fun e =>
        JValue.jobj [("text", .jstr (pyStr (objGetD e "text" (.jstr "")))),
                     ("slider", .jint (asInt (objGetD e "slider" (.jint 0))))]) := by
    rw [hfs, readEntriesFromDisk, fsGet_fsSet_self, parseDayFile, List.map_map]
    rfl
  refine ⟨hread, by rw [hread, List.length_map], ?_⟩
  intro es hes
  rw [hread, hes, List.map_map]
  exact List.map_congr_left (fun en _ => rfl)

/-- Concrete instance of `save_read_roundtrip`: the empty dict normalises
to the blank entry, which reads back verbatim. -/
theorem save_read_roundtrip_witness :
    readEntriesFromDisk
      [(dataFileName 5, FileContent.valid (.jlist
        [JValue.jobj [("text", .jstr ""), ("slider", .jint 0)]]))] 5 =
      [JValue.jobj [("text", .jstr ""), ("slider", .jint 0)]] :=
  (save_read_roundtrip [] 5 [JValue.jobj []]
    [(dataFileName 5, FileContent.valid (.jlist
      [JValue.jobj [("text", .jstr ""), ("slider", .jint 0)]]))]
    (by decide) rfl).1

/-- C9: reading a day whose file is missing, is not valid JSON, or whose
top level is not a list returns the empty list, and loading such a date
into the editor resets the state to a single blank row (id 0 after the
clear, empty text, slider 0). -/
theorem read_tolerates_bad_files (fs : FS) (d : Int) (s : SessionState)
    (h : fsGet fs (dataFileName d) = none ∨
         fsGet fs (dataFileName d) = some .corrupt ∨
         ∃ v, fsGet fs (dataFileName d) = some (.valid v) ∧ v.isList = false) :
    readEntriesFromDisk fs d = [] ∧
    loadEntriesForDate fs d s = .ok (addRow (clearRows s) "" 0) ∧
    (addRow (clearRows s) "" 0).rowIds = [0] ∧
    alGet (addRow (clearRows s) "" 0).texts 0 = some "" ∧
    alGet (addRow (clearRows s) "" 0).sliders 0 = some 0 := by
  have hread : readEntriesFromDisk fs d = [] := by
    rcases h with h | h | ⟨v, hv, hvl⟩
    · rw [readEntriesFromDisk, h]; rfl
    · rw [readEntriesFromDisk, h]; rfl
    · rw [readEntriesFromDisk, hv]
      cases v <;> simp_all [JValue.isList, parseDayFile]
  refine ⟨hread, ?_, rfl, ?_, ?_⟩
  · rw [loadEntriesForDate]
    rw [show parseDayFile (fsGet fs (dataFileName d)) = [] from hread]
    rfl
  · exact alGet_alSet_self _ _ _
  · exact alGet_alSet_self _ _ _

/-- Concrete instance of `read_tolerates_bad_files`: a file holding the
JSON object (not a list) reads as no entries and loads as one blank row. -/
theorem read_tolerates_bad_files_witness :
    readEntriesFromDisk [(dataFileName 2, FileContent.valid (.jobj []))] 2 = [] ∧
    loadEntriesForDate [(dataFileName 2, FileContent.valid (.jobj []))] 2 freshState =
      .ok (addRow (clearRows freshState) "" 0) := by
  obtain ⟨h1, h2, -, -, -⟩ :=
    read_tolerates_bad_files [(dataFileName 2, FileContent.valid (.jobj []))] 2 freshState
      (Or.inr (Or.inr ⟨.jobj [], by simp [fsGet], rfl⟩))
  exact ⟨h1, h2⟩

/-! ## Session-state lemmas -/

theorem mem_alSet {α : Type} (l : List (Nat × α)) (k : Nat) (v : α) :
    ∀ p ∈ alSet l k v, p = (k, v) ∨ p ∈ l := by
  induction l with
  | nil => intro p hp; simp [alSet] at hp; simp [hp]
  | cons q rest ih =>
      intro p hp
      by_cases hq : q.1 = k
      · simp only [alSet, hq, if_true] at hp
        rcases List.mem_cons.mp hp with rfl | hp'
        · exact Or.inl rfl
        · exact Or.inr (List.mem_cons_of_mem q hp')
      · simp only [alSet, hq, if_false] at hp
        rcases List.mem_cons.mp hp with rfl | hp'
        · exact Or.inr (List.mem_cons_self _ _)
        · rcases ih p hp' with h | h
          · exact Or.inl h
          · exact Or.inr (List.mem_cons_of_mem q h)

theorem mem_alPop {α : Type} (l : List (Nat × α)) (k : Nat) :
    ∀ p ∈ alPop l k, p ∈ l := by
  induction l with
  | nil => intro p hp; simp [alPop] at hp
  | cons q rest ih =>
      intro p hp
      by_cases hq : q.1 = k
      · simp only [alPop, hq, if_true] at hp
        exact List.mem_cons_of_mem q (ih p hp)
      · simp only [alPop, hq, if_false] at hp
        rcases List.mem_cons.mp hp with rfl | hp'
        · exact List.mem_cons_self _ _
        · exact List.mem_cons_of_mem q (ih p hp')

theorem mem_foldl_alPop {α : Type} (rids : List Nat) :
    ∀ (l : List (Nat × α)) (p : Nat × α),
      p ∈ rids.foldl (fun acc rid => alPop acc rid) l → p ∈ l := by
  induction rids with
  | nil => intro l p hp; simpa using hp
  | cons r rest ih =>
      intro l p hp
      rw [List.foldl_cons] at hp
      exact mem_alPop l r p (ih (alPop l r) p hp)

theorem alGet_mem {α : Type} (l : List (Nat × α)) (k : Nat) (v : α)
    (h : alGet l k = some v) : (k, v) ∈ l := by
  induction l with
  | nil => simp [alGet] at h
  | cons p rest ih =>
      by_cases hp : p.1 = k
      · simp only [alGet, hp, if_true, Option.some.injEq] at h
        have : p = (k, v) := Prod.ext hp h
        exact this ▸ List.mem_cons_self _ _
      · simp only [alGet, hp, if_false] at h
        exact List.mem_cons_of_mem p (ih h)

theorem idInv_addRow (s : SessionState) (t : String) (v : Int) (h : idInv s) :
    idInv (addRow s t v) := by
  intro rid hrid
  rcases List.mem_append.mp hrid with hm | hm
  · exact Nat.lt_succ_of_lt (h rid hm)
  · simp at hm
    simp [addRow, hm]

theorem nextRowId_not_mem (s : SessionState) (h : idInv s) :
    s.nextRowId ∉ s.rowIds := fun hc => Nat.lt_irrefl _ (h _ hc)

theorem nodup_addRow (s : SessionState) (t : String) (v : Int)
    (h : idInv s) (hnd : s.rowIds.Nodup) : (addRow s t v).rowIds.Nodup := by
  show (s.rowIds ++ [s.nextRowId]).Nodup
  rw [List.nodup_append]
  exact ⟨hnd, List.nodup_singleton _, by
    intro a ha hb
    simp at hb
    exact nextRowId_not_mem s h (hb ▸ ha)⟩

theorem sliderInv_addRow (s : SessionState) (t : String) (v : Int)
    (h : sliderInv s) (h0 : 0 ≤ v) (h100 : v ≤ 100) : sliderInv (addRow s t v) := by
  intro p hp
  rcases mem_alSet s.sliders s.nextRowId v p hp with rfl | hp'
  · exact ⟨h0, h100⟩
  · exact h p hp'

theorem idInv_clearRows (s : SessionState) : idInv (clearRows s) := by
  intro rid hrid
  simp [clearRows] at hrid

theorem sliderInv_clearRows (s : SessionState) (h : sliderInv s) :
    sliderInv (clearRows s) := by
  intro p hp
  exact h p (mem_foldl_alPop s.rowIds s.sliders p hp)

theorem removeOne_nextRowId (s : SessionState) (rid : Nat) :
    (removeOne s rid).nextRowId = s.nextRowId := by
  rw [removeOne]
  by_cases h : rid ∈ s.rowIds <;> simp [h]

theorem removeOne_rowIds_subset (s : SessionState) (rid : Nat) :
    ∀ r ∈ (removeOne s rid).rowIds, r ∈ s.rowIds := by
  intro r hr
  rw [removeOne] at hr
  by_cases h : rid ∈ s.rowIds
  · simp only [h, if_true] at hr
    exact List.mem_of_mem_erase hr
  · simpa [h] using hr

theorem idInv_removeOne (s : SessionState) (rid : Nat) (h : idInv s) :
    idInv (removeOne s rid) := by
  intro r hr
  rw [removeOne_nextRowId]
  exact h r (removeOne_rowIds_subset s rid r hr)

theorem nodup_removeOne (s : SessionState) (rid : Nat) (hnd : s.rowIds.Nodup) :
    (removeOne s rid).rowIds.Nodup := by
  rw [removeOne]
  by_cases h : rid ∈ s.rowIds
  · simpa [h] using hnd.erase rid
  · simpa [h] using hnd

theorem sliderInv_removeOne (s : SessionState) (rid : Nat) (h : sliderInv s) :
    sliderInv (removeOne s rid) := by
  rw [removeOne]
  by_cases hm : rid ∈ s.rowIds
  · simp only [hm, if_true]
    intro p hp
    exact h p (mem_alPop s.sliders rid p hp)
  · simpa [hm] using h

theorem foldl_removeOne_preserved (P : SessionState → Prop)
    (hP : ∀ s rid, P s → P (removeOne s rid)) :
    ∀ (rids : List Nat) (s : SessionState), P s → P (rids.foldl removeOne s) := by
  intro rids
  induction rids with
  | nil => intro s hs; simpa using hs
  | cons r rest ih =>
      intro s hs
      rw [List.foldl_cons]
      exact ih (removeOne s r) (hP s r hs)

theorem idInv_removeRows (s : SessionState) (rids : List Nat) (h : idInv s) :
    idInv (removeRows s rids) := by
  rw [removeRows]
  by_cases hr : rids.isEmpty
  · simpa [hr] using h
  · simp only [hr, if_false]
    have hfold : idInv (rids.foldl removeOne s) :=
      foldl_removeOne_preserved idInv (fun s' rid => idInv_removeOne s' rid) rids s h
    by_cases he : (rids.foldl removeOne s).rowIds.isEmpty
    · simpa [he] using idInv_addRow _ "" 0 hfold
    · simpa [he] using hfold

theorem nodup_removeRows (s : SessionState) (rids : List Nat)
    (h : idInv s) (hnd : s.rowIds.Nodup) : (removeRows s rids).rowIds.Nodup := by
  rw [removeRows]
  by_cases hr : rids.isEmpty
  · simpa [hr] using hnd
  · simp only [hr, if_false]
    have hfold : idInv (rids.foldl removeOne s) ∧ (rids.foldl removeOne s).rowIds.Nodup :=
      foldl_removeOne_preserved (fun st => idInv st ∧ st.rowIds.Nodup)
        (fun s' rid hp => ⟨idInv_removeOne s' rid hp.1, nodup_removeOne s' rid hp.2⟩)
        rids s ⟨h, hnd⟩
    by_cases he : (rids.foldl removeOne s).rowIds.isEmpty
    · simpa [he] using nodup_addRow _ "" 0 hfold.1 hfold.2
    · simpa [he] using hfold.2

theorem sliderInv_removeRows (s : SessionState) (rids : List Nat) (h : sliderInv s) :
    sliderInv (removeRows s rids) := by
  rw [removeRows]
  by_cases hr : rids.isEmpty
  · simpa [hr] using h
  · simp only [hr, if_false]
    have hfold : sliderInv (rids.foldl removeOne s) :=
      foldl_removeOne_preserved sliderInv (fun s' rid => sliderInv_removeOne s' rid) rids s h
    by_cases he : (rids.foldl removeOne s).rowIds.isEmpty
    · simpa [he] using sliderInv_addRow _ "" 0 hfold (by norm_num) (by norm_num)
    · simpa [he] using hfold

theorem resetStep_ok_inv (st st' : SessionState) (e : JValue)
    (h : resetStep st e = .ok st') :
    e.isObj = true ∧
    st' = addRow st (pyStr (objGetD e "text" (.jstr "")))
                    (asInt (objGetD e "slider" (.jint 0))) := by
  cases e <;> simp_all [resetStep, pyGet, objGetD, JValue.isObj]

theorem resetFold_preserves (P : SessionState → Prop) (Q : JValue → Prop)
    (hP : ∀ st e, Q e → P st →
      P (addRow st (pyStr (objGetD e "text" (.jstr "")))
                   (asInt (objGetD e "slider" (.jint 0))))) :
    ∀ (es : List JValue), (∀ e ∈ es, Q e) →
      ∀ (st st' : SessionState), es.foldlM resetStep st = .ok st' → P st → P st' := by
  intro es
  induction es with
  | nil =>
      intro _ st st' h hp
      have : st = st' := by simpa [List.foldlM] using h
      exact this ▸ hp
  | cons e rest ih =>
      intro hq st st' h hp
      rw [List.foldlM_cons] at h
      cases hstep : resetStep st e with
      | error msg => rw [hstep] at h; simp at h
      | ok st1 =>
          rw [hstep, except_bind_ok] at h
          obtain ⟨hobj, rfl⟩ := resetStep_ok_inv st st1 e hstep
          exact ih (fun e' he' => hq e' (by simp [he'])) _ st' h
            (hP st e (hq e (by simp)) hp)

/-! ## C4: the slider range -/

/-- C4 fails as stated: the code never clamps, so loading a day file whose
stored slider is the integer 500 puts 500 into the session state — the
0–100 invariant is not preserved by load. -/
theorem slider_range_counterexample :
    loadEntriesForDate
      [(dataFileName 0, FileContent.valid (.jlist [JValue.jobj [("slider", .jint 500)]]))] 0
      freshState =
      .ok { rowIds := [0], nextRowId := 1, texts := [(0, "")], sliders := [(0, 500)] } ∧
    ¬ sliderInv { rowIds := [0], nextRowId := 1, texts := [(0, "")], sliders := [(0, 500)] } :=
  ⟨rfl, by decide⟩

/-- C4 amended: Add creates rows with slider 0, delete preserves the 0–100
invariant, loading a file all of whose slider values coerce into 0–100
yields a state satisfying the invariant, and the entries saved from a state
satisfying the invariant all lie in 0–100 — but nothing clamps, so the
invariant holds only when the inputs are already in range. -/
theorem slider_range_preservation (s : SessionState) (rids : List Nat)
    (fs : FS) (d : Int) (s' : SessionState)
    (hs : sliderInv s)
    (hload : loadEntriesForDate fs d s = .ok s')
    (hfile : ∀ e ∈ readEntriesFromDisk fs d,
      0 ≤ asInt (objGetD e "slider" (.jint 0)) ∧ asInt (objGetD e "slider" (.jint 0)) ≤ 100) :
    sliderInv (addRow s "" 0) ∧
    sliderInv (removeRows s rids) ∧
    sliderInv s' ∧
    (∀ en ∈ currentEntries s, 0 ≤ en.slider ∧ en.slider ≤ 100) := by
  refine ⟨sliderInv_addRow s "" 0 hs (by norm_num) (by norm_num),
          sliderInv_removeRows s rids hs, ?_, ?_⟩
  · have hload' :
        (if (readEntriesFromDisk fs d).isEmpty
          then [JValue.jobj [("text", .jstr ""), ("slider", .jint 0)]]
          else readEntriesFromDisk fs d).foldlM resetStep (clearRows s) = .ok s' := hload
    refine resetFold_preserves sliderInv
      (fun e => 0 ≤ asInt (objGetD e "slider" (.jint 0)) ∧
                asInt (objGetD e "slider" (.jint 0)) ≤ 100)
      (fun st e hq hp => sliderInv_addRow st _ _ hp hq.1 hq.2)
      _ ?_ _ _ hload' (sliderInv_clearRows s hs)
    by_cases hemp : (readEntriesFromDisk fs d).isEmpty
    · rw [if_pos hemp]
      intro e he
      simp only [List.mem_singleton] at he
      subst he
      exact ⟨by decide, by decide⟩
    · rw [if_neg hemp]
      exact hfile
  · intro en hen
    rw [currentEntries] at hen
    rcases List.mem_map.mp hen with ⟨rid, _, rfl⟩
    cases halget : alGet s.sliders rid with
    | none => simp [halget]
    | some v =>
        simp only [halget, Option.getD_some]
        exact hs (rid, v) (alGet_mem s.sliders rid v halget)

/-- Concrete instance of `slider_range_preservation` at the initial
one-row state and an absent day file. -/
theorem slider_range_preservation_witness :
    sliderInv (addRow freshState "" 0) ∧ sliderInv (removeRows freshState [0]) := by
  obtain ⟨h1, h2, -, -⟩ :=
    slider_range_preservation freshState [0] [] 0 (addRow (clearRows freshState) "" 0)
      (by decide) rfl (by decide)
  exact ⟨h1, h2⟩

/-! ## C6: row-id assignment -/

/-- C6 fails as stated: `_clear_rows` (run by every load) resets the id
counter to 0, so after the app loads a date the next added row receives
id 0 again — not strictly greater than the id 0 assigned earlier in the
session (0 > 0 is false). -/
theorem rowid_counter_reset_counterexample :
    (ensureState freshState).rowIds = [0] ∧
    loadEntriesForDate [] 0 (ensureState freshState) =
      .ok (addRow (clearRows (ensureState freshState)) "" 0) ∧
    (addRow (clearRows (ensureState freshState)) "" 0).rowIds = [0] ∧
    ¬ ((0 : Nat) > 0) :=
  ⟨rfl, rfl, rfl, by decide⟩

/-- C6 amended: Add assigns the current counter value, which is strictly
greater than every live row id — an invariant preserved by add, delete,
clear, and reset/load — so no two live rows ever share an id; but the
counter restarts at 0 on `_clear_rows`, so ids repeat across loads. -/
theorem rowid_fresh_and_nodup (s : SessionState) (t : String) (v : Int)
    (rids : List Nat) (es : List JValue) (s' : SessionState)
    (hinv : idInv s) (hnd : s.rowIds.Nodup) (hreset : resetRows s es = .ok s') :
    (addRow s t v).rowIds = s.rowIds ++ [s.nextRowId] ∧
    s.nextRowId ∉ s.rowIds ∧
    idInv (addRow s t v) ∧ (addRow s t v).rowIds.Nodup ∧
    idInv (removeRows s rids) ∧ (removeRows s rids).rowIds.Nodup ∧
    idInv (clearRows s) ∧ (clearRows s).rowIds.Nodup ∧
    (clearRows s).nextRowId = 0 ∧
    idInv s' ∧ s'.rowIds.Nodup := by
  refine ⟨rfl, nextRowId_not_mem s hinv, idInv_addRow s t v hinv,
          nodup_addRow s t v hinv hnd, idInv_removeRows s rids hinv,
          nodup_removeRows s rids hinv hnd, idInv_clearRows s, by simp [clearRows],
          rfl, ?_⟩
  have hreset' : List.foldlM resetStep (clearRows s)
      (if es.isEmpty then [JValue.jobj [("text", .jstr ""), ("slider", .jint 0)]] else es) =
      .ok s' := hreset
  exact resetFold_preserves (fun st => idInv st ∧ st.rowIds.Nodup) (fun _ => True)
    (fun st e _ hp => ⟨idInv_addRow st _ _ hp.1, nodup_addRow st _ _ hp.1 hp.2⟩)
    _ (fun _ _ => trivial) _ _ hreset'
    ⟨idInv_clearRows s, by simp [clearRows]⟩

/-- Concrete instance of `rowid_fresh_and_nodup` at a two-row state. -/
theorem rowid_fresh_and_nodup_witness :
    (addRow (addRow (addRow freshState "" 0) "" 0) "" 0).rowIds = [0, 1] ++ [2] ∧
    (2 : Nat) ∉ [0, 1] := by
  obtain ⟨h1, h2, -⟩ :=
    rowid_fresh_and_nodup (addRow (addRow freshState "" 0) "" 0) "" 0 [] []
      (addRow (clearRows (addRow (addRow freshState "" 0) "" 0)) "" 0)
      (by decide) (by decide) rfl
  exact ⟨h1, h2⟩

/-! ## C7: add and delete touch exactly one row -/

/-- C7: Add appends exactly one new row (empty text, slider 0) at the end,
leaving every existing row's id, text and slider unchanged; pressing a
row's delete button removes exactly that row — its id leaves the list and
its text and slider keys are popped — leaving every other row's membership,
text and slider unchanged (and when other rows remain, the row list is
exactly the previous list with that id removed). -/
theorem add_delete_exact (s : SessionState) (rid : Nat)
    (hinv : idInv s) (hnd : s.rowIds.Nodup) (hmem : rid ∈ s.rowIds) :
    (addRow s "" 0).rowIds = s.rowIds ++ [s.nextRowId] ∧
    alGet (addRow s "" 0).texts s.nextRowId = some "" ∧
    alGet (addRow s "" 0).sliders s.nextRowId = some 0 ∧
    (∀ r ∈ s.rowIds, alGet (addRow s "" 0).texts r = alGet s.texts r ∧
                     alGet (addRow s "" 0).sliders r = alGet s.sliders r) ∧
    rid ∉ (removeRows s [rid]).rowIds ∧
    alGet (removeRows s [rid]).texts rid = none ∧
    alGet (removeRows s [rid]).sliders rid = none ∧
    (∀ r ∈ s.rowIds, r ≠ rid →
      r ∈ (removeRows s [rid]).rowIds ∧
      alGet (removeRows s [rid]).texts r = alGet s.texts r ∧
      alGet (removeRows s [rid]).sliders r = alGet s.sliders r) ∧
    (s.rowIds.erase rid ≠ [] → (removeRows s [rid]).rowIds = s.rowIds.erase rid) := by
  have hro : removeOne s rid =
      { rowIds := s.rowIds.erase rid, nextRowId := s.nextRowId,
        texts := alPop s.texts rid, sliders := alPop s.sliders rid } := by
    simp [removeOne, hmem]
  have herow : (removeOne s rid).rowIds = s.rowIds.erase rid := by rw [hro]
  have hetext : (removeOne s rid).texts = alPop s.texts rid := by rw [hro]
  have heslider : (removeOne s rid).sliders = alPop s.sliders rid := by rw [hro]
  have henext : (removeOne s rid).nextRowId = s.nextRowId := by rw [hro]
  have hrr : removeRows s [rid] =
      (if (removeOne s rid).rowIds.isEmpty
        then addRow (removeOne s rid) "" 0 else removeOne s rid) := rfl
  have hridlt : rid < s.nextRowId := hinv rid hmem
  have hridne : rid ≠ s.nextRowId := Nat.ne_of_lt hridlt
  refine ⟨rfl, alGet_alSet_self _ _ _, alGet_alSet_self _ _ _, ?_, ?_, ?_, ?_, ?_, ?_⟩
  · intro r hr
    have hrn : r ≠ s.nextRowId := Nat.ne_of_lt (hinv r hr)
    exact ⟨alGet_alSet_other _ _ _ _ hrn, alGet_alSet_other _ _ _ _ hrn⟩
  · rw [hrr]
    by_cases hemp : (removeOne s rid).rowIds.isEmpty
    · rw [if_pos hemp]
      show rid ∉ (removeOne s rid).rowIds ++ [(removeOne s rid).nextRowId]
      have hnil : s.rowIds.erase rid = [] := by
        rw [herow] at hemp
        exact List.isEmpty_iff.mp hemp
      rw [herow, henext, hnil]
      simp only [List.nil_append, List.mem_singleton]
      exact hridne
    · rw [if_neg hemp, herow]
      intro hc
      exact ((hnd.mem_erase_iff).mp hc).1 rfl
  · rw [hrr]
    by_cases hemp : (removeOne s rid).rowIds.isEmpty
    · rw [if_pos hemp]
      show alGet (alSet (removeOne s rid).texts (removeOne s rid).nextRowId "") rid = none
      rw [hetext, henext, alGet_alSet_other _ _ _ _ hridne, alGet_alPop_self]
    · rw [if_neg hemp, hetext]
      exact alGet_alPop_self _ _
  · rw [hrr]
    by_cases hemp : (removeOne s rid).rowIds.isEmpty
    · rw [if_pos hemp]
      show alGet (alSet (removeOne s rid).sliders (removeOne s rid).nextRowId 0) rid = none
      rw [heslider, henext, alGet_alSet_other _ _ _ _ hridne, alGet_alPop_self]
    · rw [if_neg hemp, heslider]
      exact alGet_alPop_self _ _
  · intro r hr hne
    have hmem2 : r ∈ s.rowIds.erase rid := (List.mem_erase_of_ne hne).mpr hr
    have hemp : ¬ (removeOne s rid).rowIds.isEmpty = true := by
      rw [herow]
      intro hc
      rw [List.isEmpty_iff] at hc
      rw [hc] at hmem2
      simp at hmem2
    rw [hrr, if_neg hemp, herow, hetext, heslider]
    exact ⟨hmem2, alGet_alPop_other s.texts rid r hne, alGet_alPop_other s.sliders rid r hne⟩
  · intro hne'
    have hemp : ¬ (removeOne s rid).rowIds.isEmpty = true := by
      rw [herow]
      intro hc
      exact hne' (List.isEmpty_iff.mp hc)
    rw [hrr, if_neg hemp, herow]

/-- Concrete instance of `add_delete_exact` at a two-row state: deleting
row 0 leaves exactly row 1. -/
theorem add_delete_exact_witness :
    (addRow (addRow (addRow freshState "a" 5) "b" 7) "" 0).rowIds = [0, 1] ++ [2] ∧
    ((addRow (addRow freshState "a" 5) "b" 7).rowIds.erase 0 ≠ [] →
      (removeRows (addRow (addRow freshState "a" 5) "b" 7) [0]).rowIds =
        (addRow (addRow freshState "a" 5) "b" 7).rowIds.erase 0) := by
  obtain ⟨h1, -, -, -, -, -, -, -, h9⟩ :=
    add_delete_exact (addRow (addRow freshState "a" 5) "b" 7) 0
      (by decide) (by decide) (by decide)
  exact ⟨h1, h9⟩

/-! ## C8: the row list is never empty -/

/-- C8: the row list is non-empty after every operation: `_ensure_state`
guarantees a row, loading a date whose file is missing or empty resets to
exactly one blank row, and deleting rows from a non-empty state leaves a
non-empty state (a blank row is re-added when the last row is deleted). -/
theorem rows_never_empty (s : SessionState) (fs : FS) (d : Int) (rids : List Nat)
    (hfile : fsGet fs (dataFileName d) = none ∨
             fsGet fs (dataFileName d) = some (.valid (.jlist [])))
    (hne : s.rowIds ≠ []) :
    (∀ t : SessionState, (ensureState t).rowIds ≠ []) ∧
    (loadEntriesForDate fs d s = .ok (addRow (clearRows s) "" 0) ∧
      (addRow (clearRows s) "" 0).rowIds = [0]) ∧
    (removeRows s rids).rowIds ≠ [] := by
  refine ⟨?_, ⟨?_, rfl⟩, ?_⟩
  · intro t
    rw [ensureState]
    by_cases ht : t.rowIds.isEmpty
    · rw [if_pos ht]
      show t.rowIds ++ [t.nextRowId] ≠ []
      simp
    · rw [if_neg ht]
      intro hc
      rw [List.isEmpty_iff] at ht
      exact ht hc
  · have hread : parseDayFile (fsGet fs (dataFileName d)) = [] := by
      rcases hfile with h | h <;> rw [h] <;> rfl
    show resetRows s (parseDayFile (fsGet fs (dataFileName d))) = .ok _
    rw [hread]
    rfl
  · rw [removeRows]
    by_cases hr : rids.isEmpty
    · simpa [hr] using hne
    · rw [if_neg (by simpa using hr)]
      by_cases he : (rids.foldl removeOne s).rowIds.isEmpty
      · rw [if_pos he]
        show (rids.foldl removeOne s).rowIds ++ [_] ≠ []
        simp
      · rw [if_neg he]
        intro hc
        rw [List.isEmpty_iff] at he
        exact he hc

/-- Concrete instance of `rows_never_empty`: with an absent day file,
loading resets to one blank row, and deleting the only row of the initial
state still leaves a row. -/
theorem rows_never_empty_witness :
    (ensureState freshState).rowIds ≠ [] ∧
    loadEntriesForDate [] 0 (ensureState freshState) =
      .ok (addRow (clearRows (ensureState freshState)) "" 0) ∧
    (removeRows (ensureState freshState) [0]).rowIds ≠ [] := by
  obtain ⟨h1, ⟨h2, -⟩, h3⟩ :=
    rows_never_empty (ensureState freshState) [] 0 [0] (Or.inl rfl) (by decide)
  exact ⟨h1 freshState, h2, h3⟩

/-! ## C3: helper development for the chart characterisation -/

/-- First-of-two options (Python's "first writer wins" into
`label_cache`). -/
def optOr {α : Type} : Option α → Option α → Option α
  | some x, _ => some x
  | none, y => y

/-- The value plotted for row position `i` of one day's stored list, as
the claim words it: the integer slider value of entry `i` when the list
has more than `i` entries, else 0. -/
def rowValueAt (es : List JValue) (i : Nat) : Int :=
  match es[i]? with
  | some e => asInt (objGetD e "slider" (.jint 0))
  | none => 0

/-- The stripped text at row position `i` of one day's stored list, when
present and non-empty. -/
def rowLabelAt (es : List JValue) (i : Nat) : Option String :=
  match es[i]? with
  | some e =>
      let tl := pyStrip (pyStr (objGetD e "text" (.jstr "")))
      if tl = "" then none else some tl
  | none => none

/-- The pure step of the `label_cache` inner loop. -/
def cacheStep (c : List (Nat × String)) (iv : Nat × JValue) : List (Nat × String) :=
  let tl := pyStrip (pyStr (objGetD iv.2 "text" (.jstr "")))
  if tl ≠ "" ∧ alGet c iv.1 = none then alSet c iv.1 tl else c

/-- One day's pass of the `label_cache` loop, on dict entries. -/
def labelCacheDayPure (cache : List (Nat × String)) (dayEntries : List JValue) :
    List (Nat × String) :=
  dayEntries.enum.foldl cacheStep cache

/-- The whole `label_cache`, on dict entries. -/
def labelCachePure (fs : FS) (d : Int) : List (Nat × String) :=
  (dailyEntries fs d).foldl (fun cache p => labelCacheDayPure cache p.2) []

theorem rowLabelAt_nil (i : Nat) : rowLabelAt [] i = none := by
  simp [rowLabelAt]

theorem rowLabelAt_cons_succ (e : JValue) (rest : List JValue) (k : Nat) :
    rowLabelAt (e :: rest) (k + 1) = rowLabelAt rest k := by
  simp [rowLabelAt]

theorem rowLabelAt_cons_zero (e : JValue) (rest : List JValue) :
    rowLabelAt (e :: rest) 0 =
      (if pyStrip (pyStr (objGetD e "text" (.jstr ""))) = "" then none
       else some (pyStrip (pyStr (objGetD e "text" (.jstr ""))))) := by
  simp [rowLabelAt]

theorem labelCacheDay_ok (cache : List (Nat × String)) (es : List JValue)
    (h : ∀ e ∈ es, e.isObj = true) :
    labelCacheDay cache es = .ok (labelCacheDayPure cache es) := by
  unfold labelCacheDay labelCacheDayPure
  refine foldlM_ok_of_forall _ cacheStep es.enum cache ?_
  intro c iv hiv
  have hobj : iv.2.isObj = true :=
    h iv.2 (List.snd_mem_of_mem_enumFrom hiv)
  rw [pyGet_of_isObj _ _ _ hobj, except_bind_ok]
  rfl

theorem foldl_cacheStep_enumFrom_get (es : List JValue) :
    ∀ (n : Nat) (c : List (Nat × String)) (i : Nat),
      alGet ((List.enumFrom n es).foldl cacheStep c) i =
        (if n ≤ i then optOr (alGet c i) (rowLabelAt es (i - n)) else alGet c i) := by
  induction es with
  | nil =>
      intro n c i
      show alGet c i = _
      rw [rowLabelAt_nil]
      by_cases hni : n ≤ i
      · rw [if_pos hni]
        cases alGet c i <;> rfl
      · rw [if_neg hni]
  | cons e rest ih =>
      intro n c i
      rw [List.enumFrom_cons, List.foldl_cons, ih (n + 1) (cacheStep c (n, e)) i]
      rcases Nat.lt_trichotomy i n with hlt | rfl | hgt
      · rw [if_neg (by omega), if_neg (by omega)]
        show alGet (if _ ∧ _ then _ else c) i = alGet c i
        split
        · exact alGet_alSet_other _ _ _ _ (Nat.ne_of_lt hlt)
        · rfl
      · rw [if_neg (by omega), if_pos (Nat.le_refl i), Nat.sub_self, rowLabelAt_cons_zero]
        show alGet (if _ ∧ _ then _ else c) i = _
        cases hc : alGet c i with
        | some x =>
            rw [if_neg (by simp [hc])]
            rw [hc]
            rfl
        | none =>
            by_cases htl : pyStrip (pyStr (objGetD e "text" (.jstr ""))) = ""
            · rw [if_neg (by simp [htl]), hc, if_pos htl]
              rfl
            · rw [if_pos ⟨htl, rfl⟩, if_neg htl, alGet_alSet_self]
              rfl
      · rw [if_pos (by omega), if_pos (by omega)]
        have hsub : i - n = (i - (n + 1)) + 1 := by omega
        rw [hsub, rowLabelAt_cons_succ]
        have halg : alGet (cacheStep c (n, e)) i = alGet c i := by
          show alGet (if _ ∧ _ then _ else c) i = alGet c i
          split
          · exact alGet_alSet_other _ _ _ _ (by omega)
          · rfl
        rw [halg]

theorem labelCacheDayPure_get (c : List (Nat × String)) (es : List JValue) (i : Nat) :
    alGet (labelCacheDayPure c es) i = optOr (alGet c i) (rowLabelAt es i) := by
  have h := foldl_cacheStep_enumFrom_get es 0 c i
  rw [if_pos (Nat.zero_le i), Nat.sub_zero] at h
  exact h

theorem labelCacheDays_get (ds : List (String × List JValue)) :
    ∀ (c : List (Nat × String)) (i : Nat),
      alGet (ds.foldl (fun cache p => labelCacheDayPure cache p.2) c) i =
        optOr (alGet c i) ((ds.filterMap (fun p => rowLabelAt p.2 i)).head?) := by
  induction ds with
  | nil =>
      intro c i
      show alGet c i = optOr (alGet c i) none
      cases alGet c i <;> rfl
  | cons p rest ih =>
      intro c i
      rw [List.foldl_cons, ih (labelCacheDayPure c p.2) i, labelCacheDayPure_get,
          List.filterMap_cons]
      cases hp : rowLabelAt p.2 i with
      | none =>
          cases alGet c i <;> rfl
      | some t =>
          cases alGet c i <;> rfl

theorem dailyEntries_get (fs : FS) (d : Int) (day : Int) (hday : day ∈ weekDays d) :
    dictGet (dailyEntries fs d) (isoformat day) [] = readEntriesFromDisk fs day :=
  dictGet_of_keyed (fun label => parseDayFile (fsGet fs (label ++ ".json"))) []
    (dailyEntries fs d)
    (fun p hp => by
      rcases List.mem_map.mp hp with ⟨day', _, rfl⟩
      rfl)
    (isoformat day)
    ⟨(isoformat day, readEntriesFromDisk fs day), List.mem_map_of_mem _ hday, rfl⟩

theorem chartValueAt_ok (es : List JValue) (i : Nat)
    (h : ∀ e ∈ es, e.isObj = true) :
    chartValueAt es i = .ok (rowValueAt es i) := by
  unfold chartValueAt
  by_cases hi : i < es.length
  · rw [dif_pos hi]
    have hobj : (es.get ⟨i, hi⟩).isObj = true := h _ (List.get_mem es i hi)
    rw [pyGet_of_isObj _ _ _ hobj, except_bind_ok]
    unfold rowValueAt
    rw [List.getElem?_eq_getElem hi]
    rfl
  · rw [dif_neg hi]
    unfold rowValueAt
    rw [List.getElem?_eq_none (by omega)]
    rfl

theorem labelCache_ok (fs : FS) (d : Int)
    (h : ∀ day ∈ weekDays d, ∀ e ∈ readEntriesFromDisk fs day, e.isObj = true) :
    labelCache fs d = .ok (labelCachePure fs d) := by
  unfold labelCache labelCachePure
  refine foldlM_ok_of_forall _ _ _ _ ?_
  intro c p hp
  rcases List.mem_map.mp hp with ⟨day, hday, rfl⟩
  exact labelCacheDay_ok c _ (h day hday)

theorem chartRecordFor_ok (fs : FS) (d : Int) (cache : List (Nat × String))
    (index : Nat) (day : Int) (hday : day ∈ weekDays d)
    (h : ∀ e ∈ readEntriesFromDisk fs day, e.isObj = true) :
    chartRecordFor fs d cache index day = .ok
      { date := isoformat day
        series := (alGet cache index).getD ("スライダー" ++ toString (index + 1))
        value := rowValueAt (readEntriesFromDisk fs day) index } := by
  unfold chartRecordFor
  simp only [dailyEntries_get fs d day hday]
  rw [chartValueAt_ok _ _ h, except_bind_ok]
  rfl

/-- C3: provided every stored entry in the 7-day window is a JSON object
(`item.get` raises otherwise), the chart plots, for every row position `i`
below the maximum entry count over the 7 days and every day of the window,
the integer slider value of entry `i` of that day's stored list when that
list has more than `i` entries and 0 otherwise; the series label for
position `i` is the first non-empty stripped text found at position `i`
scanning the days from earliest to latest, defaulting to the numbered
placeholder; and `max_length` is exactly the maximum entry count over the
7 days. -/
theorem chart_values_by_position (fs : FS) (d : Int)
    (h : ∀ day ∈ weekDays d, ∀ e ∈ readEntriesFromDisk fs day, e.isObj = true) :
    chartRecords fs d = .ok
      (((List.range (maxLength fs d)).map (fun i =>
        (weekDays d).map (fun day =>
          ({ date := isoformat day
             series := (((weekDays d).filterMap
                 (fun day' => rowLabelAt (readEntriesFromDisk fs day') i)).head?).getD
               ("スライダー" ++ toString (i + 1))
             value := rowValueAt (readEntriesFromDisk fs day) i } : ChartRecord)))).flatten) ∧
    (∀ day ∈ weekDays d, (readEntriesFromDisk fs day).length ≤ maxLength fs d) ∧
    (maxLength fs d = 0 ∨
      ∃ day ∈ weekDays d, (readEntriesFromDisk fs day).length = maxLength fs d) := by
  have hcget : ∀ i : Nat, alGet (labelCachePure fs d) i =
      ((weekDays d).filterMap (fun day' => rowLabelAt (readEntriesFromDisk fs day') i)).head? := by
    intro i
    have h1 := labelCacheDays_get (dailyEntries fs d) [] i
    have h2 : (dailyEntries fs d).filterMap (fun p => rowLabelAt p.2 i) =
        (weekDays d).filterMap (fun day' => rowLabelAt (readEntriesFromDisk fs day') i) := by
      rw [dailyEntries, List.filterMap_map]
      rfl
    rw [h2] at h1
    exact h1
  refine ⟨?_, ?_, ?_⟩
  · unfold chartRecords
    rw [labelCache_ok fs d h, except_bind_ok]
    have hinner : ∀ i ∈ List.range (maxLength fs d),
        (weekDays d).mapM (chartRecordFor fs d (labelCachePure fs d) i) =
          .ok ((weekDays d).map (fun day =>
            ({ date := isoformat day
               series := (((weekDays d).filterMap
                   (fun day' => rowLabelAt (readEntriesFromDisk fs day') i)).head?).getD
                 ("スライダー" ++ toString (i + 1))
               value := rowValueAt (readEntriesFromDisk fs day) i } : ChartRecord))) := by
      intro i _
      refine mapM_ok_of_forall _ _ _ ?_
      intro day hday
      rw [chartRecordFor_ok fs d _ i day hday (h day hday), hcget i]
    rw [mapM_ok_of_forall _ _ _ hinner, except_bind_ok, except_pure_eq]
  · exact fun day hday =>
      foldl_max_mem_le (fun p => p.2.length) (dailyEntries fs d) 0 _
        (List.mem_map_of_mem _ hday)
  · rcases foldl_max_cases (fun p => p.2.length) (dailyEntries fs d) 0 with h0 | ⟨p, hp, hmax⟩
    · exact Or.inl h0
    · right
      rcases List.mem_map.mp hp with ⟨day, hday, rfl⟩
      exact ⟨day, hday, hmax.symm⟩

/-- Concrete instance of `chart_values_by_position`: one stored day with
one entry ("` A `", 30). -/
theorem chart_values_by_position_witness :
    chartRecords [(dataFileName 0, FileContent.valid (.jlist
      [JValue.jobj [("text", .jstr " A "), ("slider", .jint 30)]]))] 0 = .ok
      (((List.range (maxLength [(dataFileName 0, FileContent.valid (.jlist
          [JValue.jobj [("text", .jstr " A "), ("slider", .jint 30)]]))] 0)).map (fun i =>
        (weekDays 0).map (fun day =>
          ({ date := isoformat day
             series := (((weekDays 0).filterMap
                 (fun day' => rowLabelAt (readEntriesFromDisk
                   [(dataFileName 0, FileContent.valid (.jlist
                     [JValue.jobj [("text", .jstr " A "), ("slider", .jint 30)]]))]
                   day') i)).head?).getD
               ("スライダー" ++ toString (i + 1))
             value := rowValueAt (readEntriesFromDisk
               [(dataFileName 0, FileContent.valid (.jlist
                 [JValue.jobj [("text", .jstr " A "), ("slider", .jint 30)]]))]
               day) i } : ChartRecord)))).flatten) :=
  (chart_values_by_position
    [(dataFileName 0, FileContent.valid (.jlist
      [JValue.jobj [("text", .jstr " A "), ("slider", .jint 30)]]))] 0 (by decide)).1
